import Mathlib

/-!
Shallow embedding of the DivvyDoo backend ledger core (Go) in Lean 4.

Monetary amounts (Go `float64`) are modelled as rationals `ℚ`; Go maps used
only for de-duplication are modelled as insertion-ordered duplicate-free
lists; the Mongo document store is modelled as in-memory lists of records,
with `UpdateOne`/upsert semantics made explicit (first matching record is
updated).  Timestamps and Mongo object ids are irrelevant to the verified
properties and are omitted.
-/

set_option autoImplicit false

namespace DivvyDoo

/-! ## Data model (internal/models) -/

/-- Go `models.SplitType` is a string type with four known constants. -/
abbrev SplitType := String

def SplitEqual : SplitType := "equal"
def SplitExact : SplitType := "exact"
def SplitPercentage : SplitType := "percentage"
def SplitShares : SplitType := "shares"

/-- Go `models.PaidBy`: one payer contribution. -/
structure PaidBy where
  userID : String
  amount : ℚ
deriving DecidableEq

/-- Go `models.SplitShare`: a (user, value) pair; the meaning of `value`
depends on the split type before calculation, and is a resolved monetary
share after calculation. -/
structure SplitShare where
  userID : String
  value : ℚ
deriving DecidableEq

/-- Go `models.SplitDetail`. -/
structure SplitDetail where
  type : SplitType
  details : List SplitShare
deriving DecidableEq

/-- Go `models.Expense` (timestamps, title, currency and Mongo ids omitted:
they play no role in the verified behaviour). -/
structure Expense where
  expenseID : String
  groupID : Option String
  creatorID : String
  amount : ℚ
  paidBy : List PaidBy
  split : SplitDetail
deriving DecidableEq

/-- Go `models.Balance`: one row per (user, scope). -/
structure Balance where
  userID : String
  groupID : Option String
  balance : ℚ
  version : Nat
deriving DecidableEq

/-- Go `models.BalanceChangeType`. -/
inductive BalanceChangeType where
  | expense
  | settlement
  | adjustment
  | correction
deriving DecidableEq

/-- Go `models.BalanceHistory` (timestamps, currency, description omitted). -/
structure BalanceHistory where
  userID : String
  groupID : Option String
  amount : ℚ
  type : BalanceChangeType
  referenceID : String
deriving DecidableEq

/-- Go `models.SettlementStatus`. -/
inductive SettlementStatus where
  | pending
  | completed
  | failed
  | cancelled
deriving DecidableEq

/-- Go `models.Settlement` (timestamps, currency, method, description,
failure reason omitted). -/
structure Settlement where
  settlementID : String
  fromUserID : String
  toUserID : String
  groupID : Option String
  amount : ℚ
  status : SettlementStatus
  transactionID : Option String
deriving DecidableEq

/-- The typed errors surfaced by the embedded operations.  All structural
validation failures in the Go code are `errors.New`/`fmt.Errorf` values
produced by validation; they are collapsed into `validationError`.  The
remaining constructors correspond to the distinct error values/paths of the
source. -/
inductive Err where
  | validationError
  | userNotFound
  | notAMember
  | expenseNotFound
  | accessDenied
  | settlementNotFound
  | onlyPayerCanComplete
  | alreadyFinalized
  | cancelNotPending
  | optimisticLock
deriving DecidableEq

/-! ## Split calculator (internal/services/expense.go) -/

/-- Sum of the resolved monetary values of a share list. -/
def valueSum (shares : List SplitShare) : ℚ :=
  (shares.map (fun s => s.value)).sum

/-- Insertion into a duplicate-free insertion-ordered list: the
deterministic model of inserting a key into a Go `map[string]bool`. -/
def insertUnique (l : List String) (x : String) : List String :=
  if x ∈ l then l else l ++ [x]

/-- `calculateEqualShares`' participant set: union of payer user-ids and
split-detail user-ids, duplicates collapsed, in first-occurrence order. -/
def participantsOf (e : Expense) : List String :=
  ((e.paidBy.map (fun pb => pb.userID)) ++
    (e.split.details.map (fun s => s.userID))).foldl insertUnique []

/-- `shares[0].Value += diff` of `calculateEqualShares`. -/
def adjustFirst : List SplitShare → ℚ → List SplitShare
  | [], _ => []
  | s :: rest, d => { s with value := s.value + d } :: rest

/-- Go `calculateEqualShares` (expense.go:145-182). -/
def calculateEqualShares (e : Expense) : Except Err (List SplitShare) :=
  let participants := participantsOf e
  let numParticipants := participants.length
  if numParticipants = 0 then
    .error .validationError
  else
    let equalShare := e.amount / (numParticipants : ℚ)
    let shares := participants.map (fun u => SplitShare.mk u equalShare)
    let total := equalShare * (numParticipants : ℚ)
    let diff := e.amount - total
    .ok (adjustFirst shares diff)

/-- Go `calculateExactShares` (expense.go:184-213). -/
def calculateExactShares (e : Expense) : Except Err (List SplitShare) :=
  if e.split.details = [] then
    .error .validationError
  else if ∃ s ∈ e.split.details, s.value ≤ 0 then
    .error .validationError
  else
    let totalSpecified := (e.split.details.map (fun s => s.value)).sum
    if |totalSpecified - e.amount| > 1/100 then
      .error .validationError
    else
      .ok (e.split.details.map (fun s => SplitShare.mk s.userID s.value))

/-- The indexed loop shared by the percentage and weighted calculators:
every entry's share is `f value`, except the last entry in input order,
whose share is `amount - acc - sum of the prior computed shares`. -/
def lastAbsorb (amount : ℚ) (f : ℚ → ℚ) : ℚ → List SplitShare → List SplitShare
  | _, [] => []
  | acc, [s] => [SplitShare.mk s.userID (amount - acc)]
  | acc, s :: t :: rest =>
    SplitShare.mk s.userID (f s.value) :: lastAbsorb amount f (acc + f s.value) (t :: rest)

/-- Go `calculatePercentageShares` (expense.go:215-253). -/
def calculatePercentageShares (e : Expense) : Except Err (List SplitShare) :=
  if e.split.details = [] then
    .error .validationError
  else if ∃ s ∈ e.split.details, s.value ≤ 0 ∨ 100 < s.value then
    .error .validationError
  else
    let totalPercentage := (e.split.details.map (fun s => s.value)).sum
    if |totalPercentage - 100| > 1/100 then
      .error .validationError
    else
      .ok (lastAbsorb e.amount (fun v => v / 100 * e.amount) 0 e.split.details)

/-- Go `calculateShareBased` (expense.go:255-293). -/
def calculateShareBased (e : Expense) : Except Err (List SplitShare) :=
  if e.split.details = [] then
    .error .validationError
  else if ∃ s ∈ e.split.details, s.value ≤ 0 then
    .error .validationError
  else
    let totalShares := (e.split.details.map (fun s => s.value)).sum
    if totalShares = 0 then
      .error .validationError
    else
      .ok (lastAbsorb e.amount (fun v => v / totalShares * e.amount) 0 e.split.details)

/-- Go `calculateShares` (expense.go:130-143): dispatch on the split type
string. -/
def calculateShares (e : Expense) : Except Err (List SplitShare) :=
  if e.split.type = SplitEqual then calculateEqualShares e
  else if e.split.type = SplitExact then calculateExactShares e
  else if e.split.type = SplitPercentage then calculatePercentageShares e
  else if e.split.type = SplitShares then calculateShareBased e
  else .error .validationError

/-- Go `validateExpense` (expense.go:99-128). -/
def validateExpense (e : Expense) : Option Err :=
  if e.amount ≤ 0 then
    some .validationError
  else if e.paidBy = [] then
    some .validationError
  else if ∃ pb ∈ e.paidBy, pb.amount ≤ 0 then
    some .validationError
  else if |(e.paidBy.map (fun pb => pb.amount)).sum - e.amount| > 1/100 then
    some .validationError
  else if e.split.type = SplitEqual ∨ e.split.type = SplitExact ∨
      e.split.type = SplitPercentage ∨ e.split.type = SplitShares then
    none
  else
    some .validationError

/-! ## Ledger store (internal/repositories/balance.go) -/

/-- Go `balanceRepository.UpdateBalance` (balance.go:116-142): Mongo upsert
with `$inc`.  The first row matching `(userID, groupID)` has its balance
incremented by `amount` and its version bumped; if no row matches, a new
row is inserted with `balance = amount` and `version = 1` (the `$inc` of a
missing field starts from 0) and the default currency. -/
def UpdateBalance (userID : String) (groupID : Option String) (amount : ℚ) :
    List Balance → List Balance
  | [] => [{ userID := userID, groupID := groupID, balance := amount, version := 1 }]
  | b :: rest =>
    if b.userID = userID ∧ b.groupID = groupID then
      { b with balance := b.balance + amount, version := b.version + 1 } :: rest
    else
      b :: UpdateBalance userID groupID amount rest

/-- Go `balanceRepository.GetByUserAndGroup` (balance.go:96-114): the first
row matching `(userID, groupID)`. -/
def findBalance (userID : String) (groupID : Option String) : List Balance → Option Balance
  | [] => none
  | b :: rest =>
    if b.userID = userID ∧ b.groupID = groupID then some b
    else findBalance userID groupID rest

/-- The amount stored for `(userID, groupID)`, zero when no row exists
(the value an upsert starts from). -/
def balanceAmount (rows : List Balance) (userID : String) (groupID : Option String) : ℚ :=
  match findBalance userID groupID rows with
  | some b => b.balance
  | none => 0

/-- Go `balanceRepository.UpdateBalanceWithVersion` (balance.go:144-177):
`UpdateOne` with an equality filter on `(user_id, group_id, version)`.  The
first row matching user, scope AND the version the caller last read is
overwritten with the caller's balance and `version + 1`; `none` when no row
matched (`MatchedCount == 0`). -/
def casUpdate (b : Balance) : List Balance → Option (List Balance)
  | [] => none
  | r :: rest =>
    if r.userID = b.userID ∧ r.groupID = b.groupID ∧ r.version = b.version then
      some ({ r with balance := b.balance, version := b.version + 1 } :: rest)
    else
      (casUpdate b rest).map (fun l => r :: l)

/-- Go `UpdateBalanceWithVersion`, state-passing form: on a version
mismatch (`MatchedCount == 0`) the stored rows are returned untouched
together with `ErrOptimisticLockFailure`. -/
def UpdateBalanceWithVersion (b : Balance) (rows : List Balance) :
    List Balance × Option Err :=
  match casUpdate b rows with
  | some rows' => (rows', none)
  | none => (rows, some .optimisticLock)

/-! ## Expense service state model (internal/services/expense.go) -/

/-- The persistent state touched by the expense service: registered users,
group membership, the expense collection, the balance rows and the
balance-history audit rows. -/
structure ExpenseState where
  users : List String
  members : List (String × String)
  expenses : List Expense
  balances : List Balance
  history : List BalanceHistory
deriving DecidableEq

/-- All user ids an expense mentions: creator, payers, split participants
(expense.go:296-310, duplicates collapsed). -/
def mentionedUsers (e : Expense) : List String :=
  ((e.creatorID :: e.paidBy.map (fun pb => pb.userID)) ++
    e.split.details.map (fun s => s.userID)).foldl insertUnique []

/-- Go `validateUsersExist` (expense.go:295-322): every mentioned user must
be registered. -/
def validateUsersExist (st : ExpenseState) (e : Expense) : Option Err :=
  if ∀ u ∈ mentionedUsers e, u ∈ st.users then none else some .userNotFound

/-- Go `validateGroupMembership` (expense.go:324-351): every mentioned user
must be a member of the group. -/
def validateGroupMembership (st : ExpenseState) (groupID : String) (e : Expense) : Option Err :=
  if ∀ u ∈ mentionedUsers e, (groupID, u) ∈ st.members then none
  else some .notAMember

/-- Go `ExpenseService.updateBalances` (expense.go:393-418): for each
resolved share and each payer, the payer's own share is netted against what
they paid; every other participant's balance decreases by their share and
the payer's increases by that same share. -/
def updateBalances (e : Expense) (rows : List Balance) : List Balance :=
  e.split.details.foldl (fun rows share =>
    e.paidBy.foldl (fun rows pb =>
      if pb.userID = share.userID then
        UpdateBalance pb.userID e.groupID (pb.amount - share.value) rows
      else if 0 < share.value then
        UpdateBalance pb.userID e.groupID share.value
          (UpdateBalance share.userID e.groupID (-share.value) rows)
      else rows) rows) rows

/-- Go `ExpenseService.CreateExpense` (expense.go:38-97): validate, check
referential integrity, calculate shares, then persist the expense and apply
the balance deltas in one transaction.  On any error the state is returned
unchanged (nothing was written before the error, and the transaction is
all-or-nothing). -/
def CreateExpense (st : ExpenseState) (e : Expense) : ExpenseState × Option Err :=
  match validateExpense e with
  | some err => (st, some err)
  | none =>
  match validateUsersExist st e with
  | some err => (st, some err)
  | none =>
  match (match e.groupID with
         | some gid => validateGroupMembership st gid e
         | none => none) with
  | some err => (st, some err)
  | none =>
  match calculateShares e with
  | .error err => (st, some err)
  | .ok shares =>
    let e' := { e with split := { e.split with details := shares } }
    ({ st with
        expenses := st.expenses ++ [e']
        balances := updateBalances e' st.balances }, none)

/-- Go `ExpenseService.GetExpense` (expense.go:353-383), state-passing so
the read-only frame is explicit: the caller must be the creator, a payer or
a split participant. -/
def findExpense (expenses : List Expense) (expenseID : String) : Option Expense :=
  match expenses with
  | [] => none
  | e :: rest =>
    if e.expenseID = expenseID then some e else findExpense rest expenseID

/-- The access test of `GetExpense` (expense.go:359-376): creator, payer or
split participant. -/
def hasAccess (e : Expense) (userID : String) : Prop :=
  e.creatorID = userID ∨
    (∃ pb ∈ e.paidBy, pb.userID = userID) ∨
    (∃ s ∈ e.split.details, s.userID = userID)

instance (e : Expense) (userID : String) : Decidable (hasAccess e userID) := by
  unfold hasAccess; infer_instance

/-- Go `ExpenseService.GetExpense` (expense.go:353-383), state-passing so
the read-only frame is explicit: the caller must be the creator, a payer or
a split participant. -/
def GetExpense (st : ExpenseState) (expenseID userID : String) :
    ExpenseState × Except Err Expense :=
  match findExpense st.expenses expenseID with
  | none => (st, .error .expenseNotFound)
  | some e =>
    if hasAccess e userID then (st, .ok e) else (st, .error .accessDenied)

/-! ## Settlement service (services settlement.go, repositories/settlement.go) -/

/-- The persistent state touched by the settlement service. -/
structure LedgerState where
  settlements : List Settlement
  balances : List Balance
  history : List BalanceHistory
deriving DecidableEq

/-- Go `settlementRepository.GetByID` (settlement.go:65-78): first document
matching the settlement id. -/
def findSettlement : List Settlement → String → Option Settlement
  | [], _ => none
  | s :: rest, settlementID =>
    if s.settlementID = settlementID then some s
    else findSettlement rest settlementID

/-- Update the first row matching the settlement id (Mongo `UpdateOne`). -/
def updateFirstSettlement (f : Settlement → Settlement) (settlementID : String) :
    List Settlement → List Settlement
  | [] => []
  | s :: rest =>
    if s.settlementID = settlementID then f s :: rest
    else s :: updateFirstSettlement f settlementID rest

/-- Go `settlementRepository.MarkCompleted` (settlement.go:186-208). -/
def MarkCompleted (rows : List Settlement) (settlementID : String)
    (transactionID : Option String) : List Settlement :=
  updateFirstSettlement
    (fun s => { s with status := .completed, transactionID := transactionID })
    settlementID rows

/-- Go `settlementRepository.MarkCancelled` (settlement.go:234-253). -/
def MarkCancelled (rows : List Settlement) (settlementID : String) : List Settlement :=
  updateFirstSettlement (fun s => { s with status := .cancelled }) settlementID rows

/-- Go `SettlementService.CompleteSettlement` (settlement service,
lines 173-246): only the from-user may invoke; only a `pending` settlement
may complete; inside one transaction the settlement is marked completed,
the from-user's balance is incremented by `+amount`, the to-user's by
`-amount`, and two history rows referencing the settlement are appended
with deltas `+amount` and `-amount`. -/
def CompleteSettlement (st : LedgerState) (settlementID userID : String)
    (transactionID : Option String) : LedgerState × Option Err :=
  match findSettlement st.settlements settlementID with
  | none => (st, some .settlementNotFound)
  | some s =>
    if s.fromUserID ≠ userID then (st, some .onlyPayerCanComplete)
    else if s.status ≠ .pending then (st, some .alreadyFinalized)
    else
      ({ settlements := MarkCompleted st.settlements settlementID transactionID
         balances :=
           UpdateBalance s.toUserID s.groupID (-s.amount)
             (UpdateBalance s.fromUserID s.groupID s.amount st.balances)
         history := st.history ++
           [{ userID := s.fromUserID, groupID := s.groupID, amount := s.amount,
              type := .settlement, referenceID := settlementID },
            { userID := s.toUserID, groupID := s.groupID, amount := -s.amount,
              type := .settlement, referenceID := settlementID }] }, none)

/-- Go `SettlementService.CancelSettlement` (settlement service,
lines 248-264): either party may invoke, only from `pending`; pure status
change. -/
def CancelSettlement (st : LedgerState) (settlementID userID : String) :
    LedgerState × Option Err :=
  match findSettlement st.settlements settlementID with
  | none => (st, some .settlementNotFound)
  | some s =>
    if s.fromUserID ≠ userID ∧ s.toUserID ≠ userID then (st, some .settlementNotFound)
    else if s.status ≠ .pending then (st, some .cancelNotPending)
    else ({ st with settlements := MarkCancelled st.settlements settlementID }, none)

/-! ## Lemmas about the split calculator -/

theorem valueSum_nil : valueSum [] = 0 := rfl

theorem valueSum_cons (s : SplitShare) (l : List SplitShare) :
    valueSum (s :: l) = s.value + valueSum l := by
  simp [valueSum]

theorem valueSum_map_mk (participants : List String) (c : ℚ) :
    valueSum (participants.map (fun u => SplitShare.mk u c)) =
      (participants.length : ℚ) * c := by
  induction participants with
  | nil => simp [valueSum]
  | cons p ps ih =>
    rw [List.map_cons, valueSum_cons, ih, List.length_cons]
    push_cast
    ring

theorem valueSum_adjustFirst (l : List SplitShare) (d : ℚ) (h : l ≠ []) :
    valueSum (adjustFirst l d) = valueSum l + d := by
  cases l with
  | nil => exact absurd rfl h
  | cons s rest =>
    simp only [adjustFirst, valueSum_cons]
    ring

theorem valueSum_lastAbsorb (amount : ℚ) (f : ℚ → ℚ) :
    ∀ (l : List SplitShare) (acc : ℚ), l ≠ [] →
      valueSum (lastAbsorb amount f acc l) = amount - acc
  | [], _, h => absurd rfl h
  | [s], acc, _ => by
    simp [lastAbsorb, valueSum]
  | s :: t :: rest, acc, _ => by
    rw [lastAbsorb, valueSum_cons,
      valueSum_lastAbsorb amount f (t :: rest) (acc + f s.value) (by simp)]
    ring

theorem lastAbsorb_append (amount : ℚ) (f : ℚ → ℚ) :
    ∀ (init : List SplitShare) (lst : SplitShare) (acc : ℚ),
      lastAbsorb amount f acc (init ++ [lst]) =
        init.map (fun s => SplitShare.mk s.userID (f s.value)) ++
          [SplitShare.mk lst.userID
            (amount - (acc + ((init.map (fun s => f s.value)).sum)))]
  | [], lst, acc => by
    simp [lastAbsorb]
  | s :: init, lst, acc => by
    obtain ⟨t, rest, ht⟩ : ∃ t rest, init ++ [lst] = t :: rest := by
      cases init <;> exact ⟨_, _, rfl⟩
    rw [List.cons_append, ht, lastAbsorb, ← ht,
      lastAbsorb_append amount f init lst (acc + f s.value)]
    simp [add_assoc]

theorem valueSum_map_mk_value (l : List SplitShare) :
    valueSum (l.map (fun s => SplitShare.mk s.userID s.value)) =
      (l.map (fun s => s.value)).sum := by
  induction l with
  | nil => rfl
  | cons s rest ih => rw [List.map_cons, valueSum_cons, ih, List.map_cons, List.sum_cons]

theorem calculateEqualShares_sum (e : Expense) (l : List SplitShare)
    (h : calculateEqualShares e = .ok l) : valueSum l = e.amount := by
  simp only [calculateEqualShares] at h
  split at h
  · exact absurd h (by simp)
  · rename_i hn
    have hne : participantsOf e ≠ [] := by
      intro hnil
      exact hn (by rw [hnil]; rfl)
    injection h with h
    subst h
    rw [valueSum_adjustFirst _ _ (by simpa using hne), valueSum_map_mk]
    ring

theorem calculateExactShares_sum (e : Expense) (l : List SplitShare)
    (h : calculateExactShares e = .ok l) : |valueSum l - e.amount| ≤ 1/100 := by
  simp only [calculateExactShares] at h
  split at h
  · exact absurd h (by simp)
  · split at h
    · exact absurd h (by simp)
    · split at h
      · exact absurd h (by simp)
      · rename_i hsum
        injection h with h
        subst h
        rw [valueSum_map_mk_value]
        exact not_lt.mp hsum

theorem calculatePercentageShares_sum (e : Expense) (l : List SplitShare)
    (h : calculatePercentageShares e = .ok l) : valueSum l = e.amount := by
  simp only [calculatePercentageShares] at h
  split at h
  · exact absurd h (by simp)
  · rename_i hne
    split at h
    · exact absurd h (by simp)
    · split at h
      · exact absurd h (by simp)
      · injection h with h
        subst h
        rw [valueSum_lastAbsorb _ _ _ _ hne]
        ring

theorem calculateShareBased_sum (e : Expense) (l : List SplitShare)
    (h : calculateShareBased e = .ok l) : valueSum l = e.amount := by
  simp only [calculateShareBased] at h
  split at h
  · exact absurd h (by simp)
  · rename_i hne
    split at h
    · exact absurd h (by simp)
    · split at h
      · exact absurd h (by simp)
      · injection h with h
        subst h
        rw [valueSum_lastAbsorb _ _ _ _ hne]
        ring

/-- C1.  For every expense that passes structural validation and whose
share calculation succeeds, the resolved shares sum to the expense amount
within a tolerance of 0.01, for each of the four split types. -/
theorem calculateShares_sum_within_tolerance (e : Expense) (l : List SplitShare)
    (hv : validateExpense e = none) (h : calculateShares e = .ok l) :
    |valueSum l - e.amount| ≤ 1/100 := by
  simp only [calculateShares] at h
  split_ifs at h
  · rw [calculateEqualShares_sum e l h]; simp
  · exact calculateExactShares_sum e l h
  · rw [calculatePercentageShares_sum e l h]; simp
  · rw [calculateShareBased_sum e l h]; simp

theorem mem_foldl_insertUnique (xs : List String) :
    ∀ (acc : List String) (x : String),
      x ∈ xs.foldl insertUnique acc ↔ x ∈ acc ∨ x ∈ xs := by
  induction xs with
  | nil => simp
  | cons y ys ih =>
    intro acc x
    rw [List.foldl_cons, ih]
    unfold insertUnique
    by_cases hy : y ∈ acc
    · simp only [if_pos hy, List.mem_cons]
      constructor
      · rintro (hx | hx)
        · exact Or.inl hx
        · exact Or.inr (Or.inr hx)
      · rintro (hx | hx | hx)
        · exact Or.inl hx
        · exact Or.inl (hx ▸ hy)
        · exact Or.inr hx
    · simp only [if_neg hy, List.mem_append, List.mem_singleton, List.mem_cons]
      tauto

theorem nodup_foldl_insertUnique (xs : List String) :
    ∀ (acc : List String), acc.Nodup → (xs.foldl insertUnique acc).Nodup := by
  induction xs with
  | nil => exact fun _ h => h
  | cons y ys ih =>
    intro acc hacc
    rw [List.foldl_cons]
    apply ih
    unfold insertUnique
    by_cases hy : y ∈ acc
    · simpa [if_pos hy] using hacc
    · rw [if_neg hy]
      simp [List.nodup_append, hacc, hy]

/-- C5.  Equal split: the participant set is the union of payer user-ids
and split-detail user-ids with duplicates collapsed; each of the N
participants receives `amount / N`, except the first participant, whose
share additionally absorbs the remainder `amount − N×share`, so the shares
sum to the amount exactly; with N = 0 the calculation fails. -/
theorem calculateEqualShares_spec (e : Expense) :
    (participantsOf e).Nodup ∧
    (∀ u, u ∈ participantsOf e ↔
      u ∈ e.paidBy.map (fun pb => pb.userID) ∨
        u ∈ e.split.details.map (fun s => s.userID)) ∧
    (participantsOf e = [] → calculateEqualShares e = .error .validationError) ∧
    (∀ p ps, participantsOf e = p :: ps →
      calculateEqualShares e =
        .ok (SplitShare.mk p
            (e.amount / (((p :: ps).length : Nat) : ℚ) +
              (e.amount - e.amount / (((p :: ps).length : Nat) : ℚ) *
                (((p :: ps).length : Nat) : ℚ))) ::
          ps.map (fun u => SplitShare.mk u (e.amount / (((p :: ps).length : Nat) : ℚ))))) ∧
    (∀ l, calculateEqualShares e = .ok l → valueSum l = e.amount) := by
  refine ⟨nodup_foldl_insertUnique _ [] (by simp), ?_, ?_, ?_, ?_⟩
  · intro u
    rw [participantsOf, mem_foldl_insertUnique]
    simp
  · intro hnil
    simp [calculateEqualShares, hnil]
  · intro p ps hcons
    simp only [calculateEqualShares, hcons]
    simp [adjustFirst]
  · exact fun l h => calculateEqualShares_sum e l h

/-- C6.  Percentage split: an empty detail list fails; a value outside
(0, 100] fails; values whose sum differs from 100 by more than 0.01 fail
(in particular sums of 99 or 101); on success every value lies in (0, 100],
the values sum to 100 within 0.01, and each share is `value/100 × amount`
except the last entry in input order, which is `amount` minus the sum of
all prior computed shares. -/
theorem calculatePercentageShares_spec (e : Expense) :
    (e.split.details = [] → calculatePercentageShares e = .error .validationError) ∧
    ((∃ s ∈ e.split.details, s.value ≤ 0 ∨ 100 < s.value) →
      calculatePercentageShares e = .error .validationError) ∧
    (|(e.split.details.map (fun s => s.value)).sum - 100| > 1/100 →
      calculatePercentageShares e = .error .validationError) ∧
    (∀ l, calculatePercentageShares e = .ok l →
      (∀ s ∈ e.split.details, 0 < s.value ∧ s.value ≤ 100) ∧
      |(e.split.details.map (fun s => s.value)).sum - 100| ≤ 1/100 ∧
      (∀ init lst, e.split.details = init ++ [lst] →
        l = init.map (fun s => SplitShare.mk s.userID (s.value / 100 * e.amount)) ++
          [SplitShare.mk lst.userID
            (e.amount - (init.map (fun s => s.value / 100 * e.amount)).sum)])) := by
  refine ⟨?_, ?_, ?_, ?_⟩
  · intro hnil
    simp [calculatePercentageShares, hnil]
  · intro hex
    have hne : e.split.details ≠ [] := by
      intro hnil
      rw [hnil] at hex
      simp at hex
    simp [calculatePercentageShares, hne, hex]
  · intro hsum
    by_cases hnil : e.split.details = []
    · simp [calculatePercentageShares, hnil]
    · by_cases hex : ∃ s ∈ e.split.details, s.value ≤ 0 ∨ 100 < s.value
      · simp [calculatePercentageShares, hnil, hex]
      · simp only [calculatePercentageShares, if_neg hnil, if_neg hex, if_pos hsum]
  · intro l h
    simp only [calculatePercentageShares] at h
    split at h
    · exact absurd h (by simp)
    · split at h
      · exact absurd h (by simp)
      · rename_i hex
        split at h
        · exact absurd h (by simp)
        · rename_i hsum
          injection h with h
          refine ⟨?_, not_lt.mp hsum, ?_⟩
          · intro s hs
            push_neg at hex
            exact hex s hs
          · intro init lst hdet
            rw [← h, hdet, lastAbsorb_append]
            simp

/-! ## Lemmas about the ledger store -/

theorem balanceAmount_UpdateBalance_same (u : String) (g : Option String) (d : ℚ) :
    ∀ rows : List Balance,
      balanceAmount (UpdateBalance u g d rows) u g = balanceAmount rows u g + d
  | [] => by simp [UpdateBalance, balanceAmount, findBalance]
  | b :: rest => by
    by_cases hb : b.userID = u ∧ b.groupID = g
    · simp [UpdateBalance, balanceAmount, findBalance, hb]
    · simp only [UpdateBalance, if_neg hb, balanceAmount, findBalance, hb, if_false]
      exact balanceAmount_UpdateBalance_same u g d rest

theorem balanceAmount_UpdateBalance_other (u : String) (g : Option String) (d : ℚ)
    (u' : String) (g' : Option String) (h : ¬(u' = u ∧ g' = g)) :
    ∀ rows : List Balance,
      balanceAmount (UpdateBalance u g d rows) u' g' = balanceAmount rows u' g'
  | [] => by
    have : ¬(u = u' ∧ g = g') := fun hc => h ⟨hc.1.symm, hc.2.symm⟩
    simp [UpdateBalance, balanceAmount, findBalance, this]
  | b :: rest => by
    by_cases hb : b.userID = u ∧ b.groupID = g
    · have hb' : ¬(b.userID = u' ∧ b.groupID = g') := by
        intro hc
        exact h ⟨hc.1.symm.trans hb.1, hc.2.symm.trans hb.2⟩
      have hsym : ¬(u = u' ∧ g = g') := fun hc => h ⟨hc.1.symm, hc.2.symm⟩
      simp [UpdateBalance, balanceAmount, findBalance, hb, hb', hsym]
    · by_cases hb' : b.userID = u' ∧ b.groupID = g'
      · simp [UpdateBalance, balanceAmount, findBalance, hb, hb', h]
      · simp only [UpdateBalance, if_neg hb, balanceAmount, findBalance, hb', if_false]
        exact balanceAmount_UpdateBalance_other u g d u' g' h rest

theorem casUpdate_none (b : Balance) :
    ∀ rows : List Balance,
      (∀ r ∈ rows, ¬(r.userID = b.userID ∧ r.groupID = b.groupID ∧ r.version = b.version)) →
      casUpdate b rows = none
  | [], _ => rfl
  | r :: rest, h => by
    rw [casUpdate, if_neg (h r (by simp)),
      casUpdate_none b rest (fun r' hr' => h r' (by simp [hr']))]
    rfl

theorem casUpdate_found (b : Balance) :
    ∀ (pre : List Balance) (r : Balance) (post : List Balance),
      (∀ r' ∈ pre, ¬(r'.userID = b.userID ∧ r'.groupID = b.groupID ∧ r'.version = b.version)) →
      r.userID = b.userID → r.groupID = b.groupID → r.version = b.version →
      casUpdate b (pre ++ r :: post) =
        some (pre ++ { r with balance := b.balance, version := b.version + 1 } :: post)
  | [], r, post, _, h1, h2, h3 => by
    simp [casUpdate, h1, h2, h3]
  | p :: pre, r, post, hpre, h1, h2, h3 => by
    rw [List.cons_append, casUpdate, if_neg (hpre p (by simp)),
      casUpdate_found b pre r post (fun r' hr' => hpre r' (by simp [hr'])) h1 h2 h3]
    rfl

/-- C8.  The versioned update writes a `Balance` only when the stored
version still equals the version the caller last read, in which case the
new amount is stored with the version incremented; on a version mismatch it
returns the optimistic-lock error and the stored rows are unchanged. -/
theorem UpdateBalanceWithVersion_spec (b : Balance) (rows : List Balance) :
    ((∀ r ∈ rows, ¬(r.userID = b.userID ∧ r.groupID = b.groupID ∧ r.version = b.version)) →
      UpdateBalanceWithVersion b rows = (rows, some .optimisticLock)) ∧
    (∀ (pre : List Balance) (r : Balance) (post : List Balance),
      rows = pre ++ r :: post →
      (∀ r' ∈ pre, ¬(r'.userID = b.userID ∧ r'.groupID = b.groupID ∧ r'.version = b.version)) →
      r.userID = b.userID → r.groupID = b.groupID → r.version = b.version →
      UpdateBalanceWithVersion b rows =
        (pre ++ { r with balance := b.balance, version := b.version + 1 } :: post, none)) := by
  constructor
  · intro hnone
    unfold UpdateBalanceWithVersion
    rw [casUpdate_none b rows hnone]
  · intro pre r post hrows hpre h1 h2 h3
    unfold UpdateBalanceWithVersion
    rw [hrows, casUpdate_found b pre r post hpre h1 h2 h3]

/-! ## Lemmas about the settlement state machine -/

theorem findSettlement_updateFirst_same (f : Settlement → Settlement)
    (hf : ∀ s, (f s).settlementID = s.settlementID) (settlementID : String) :
    ∀ rows : List Settlement,
      findSettlement (updateFirstSettlement f settlementID rows) settlementID =
        (findSettlement rows settlementID).map f
  | [] => rfl
  | s :: rest => by
    by_cases hs : s.settlementID = settlementID
    · simp [updateFirstSettlement, findSettlement, hs, hf s]
    · simp only [updateFirstSettlement, if_neg hs, findSettlement, hs, if_false]
      exact findSettlement_updateFirst_same f hf settlementID rest

theorem findSettlement_updateFirst_other (f : Settlement → Settlement)
    (hf : ∀ s, (f s).settlementID = s.settlementID) (settlementID id' : String)
    (hne : id' ≠ settlementID) :
    ∀ rows : List Settlement,
      findSettlement (updateFirstSettlement f settlementID rows) id' =
        findSettlement rows id'
  | [] => rfl
  | s :: rest => by
    have hne' : settlementID ≠ id' := fun hc => hne hc.symm
    by_cases hs : s.settlementID = settlementID
    · have hfs : (f s).settlementID ≠ id' := by
        rw [hf s, hs]
        exact hne'
      have hs' : s.settlementID ≠ id' := by
        rw [hs]
        exact hne'
      simp [updateFirstSettlement, findSettlement, hs, hfs, hs', hne']
    · by_cases hs' : s.settlementID = id'
      · simp [updateFirstSettlement, findSettlement, hs, hs', hne]
      · simp only [updateFirstSettlement, if_neg hs, findSettlement, hs', if_false]
        exact findSettlement_updateFirst_other f hf settlementID id' hne rest

/-- The transaction body of a successful `CompleteSettlement` call, named
so the lifecycle proofs can talk about the post-state. -/
def completedState (st : LedgerState) (settlementID : String) (t : Option String)
    (s : Settlement) : LedgerState :=
  { settlements := MarkCompleted st.settlements settlementID t
    balances :=
      UpdateBalance s.toUserID s.groupID (-s.amount)
        (UpdateBalance s.fromUserID s.groupID s.amount st.balances)
    history := st.history ++
      [{ userID := s.fromUserID, groupID := s.groupID, amount := s.amount,
         type := .settlement, referenceID := settlementID },
       { userID := s.toUserID, groupID := s.groupID, amount := -s.amount,
         type := .settlement, referenceID := settlementID }] }

theorem CompleteSettlement_run (st : LedgerState) (settlementID userID : String)
    (t : Option String) (s : Settlement)
    (hfind : findSettlement st.settlements settlementID = some s)
    (hfrom : s.fromUserID = userID) (hpending : s.status = .pending) :
    CompleteSettlement st settlementID userID t =
      (completedState st settlementID t s, none) := by
  unfold CompleteSettlement completedState
  rw [hfind]
  simp [hfrom, hpending]

theorem markCompleted_preserves_id (t : Option String) (s : Settlement) :
    (({ s with status := SettlementStatus.completed, transactionID := t } :
      Settlement)).settlementID = s.settlementID := rfl

theorem findSettlement_completedState (st : LedgerState) (settlementID : String)
    (t : Option String) (s : Settlement)
    (hfind : findSettlement st.settlements settlementID = some s) :
    findSettlement (completedState st settlementID t s).settlements settlementID =
      some { s with status := .completed, transactionID := t } := by
  show findSettlement (MarkCompleted st.settlements settlementID t) settlementID = _
  rw [MarkCompleted,
    findSettlement_updateFirst_same
      (fun x => { x with status := .completed, transactionID := t })
      (fun _ => rfl) settlementID, hfind]
  rfl

/-- C3.  A settlement completes only from `pending`: invoking complete (by
the paying party) on a settlement that is not pending returns the
already-finalized error and leaves the state — in particular the balances —
untouched; hence completing the same settlement twice mutates balances
exactly once: the second call returns the already-finalized error and the
state produced by the first call, unchanged. -/
theorem CompleteSettlement_only_from_pending (st : LedgerState)
    (settlementID userID : String) (t : Option String) :
    (∀ s, findSettlement st.settlements settlementID = some s →
      s.fromUserID = userID → s.status ≠ .pending →
      CompleteSettlement st settlementID userID t = (st, some .alreadyFinalized)) ∧
    (∀ st' t', CompleteSettlement st settlementID userID t = (st', none) →
      CompleteSettlement st' settlementID userID t' = (st', some .alreadyFinalized)) := by
  constructor
  · intro s hfind hfrom hstatus
    unfold CompleteSettlement
    rw [hfind]
    simp [hfrom, hstatus]
  · intro st' t' h
    cases hfind : findSettlement st.settlements settlementID with
    | none =>
      have hrun : CompleteSettlement st settlementID userID t =
          (st, some .settlementNotFound) := by
        unfold CompleteSettlement
        rw [hfind]
      rw [hrun] at h
      exact absurd (congrArg Prod.snd h) (by simp)
    | some s =>
      by_cases hfrom : s.fromUserID = userID
      · by_cases hstatus : s.status = .pending
        · rw [CompleteSettlement_run st settlementID userID t s hfind hfrom hstatus] at h
          have hst' : st' = completedState st settlementID t s :=
            ((Prod.mk.injEq _ _ _ _).mp h).1.symm
          subst hst'
          unfold CompleteSettlement
          rw [findSettlement_completedState st settlementID t s hfind]
          simp [hfrom]
        · have hrun : CompleteSettlement st settlementID userID t =
              (st, some .alreadyFinalized) := by
            unfold CompleteSettlement
            rw [hfind]
            simp [hfrom, hstatus]
          rw [hrun] at h
          exact absurd (congrArg Prod.snd h) (by simp)
      · have hrun : CompleteSettlement st settlementID userID t =
            (st, some .onlyPayerCanComplete) := by
          unfold CompleteSettlement
          rw [hfind]
          simp [hfrom]
        rw [hrun] at h
        exact absurd (congrArg Prod.snd h) (by simp)

/-- C4.  Completing a pending settlement (invoked by its paying party)
succeeds, marks the settlement completed, adds `+amount` to the from-user's
balance and `−amount` to the to-user's balance in the settlement's scope,
and appends exactly two history rows referencing the settlement whose
deltas `+amount` and `−amount` mirror the balance increments. -/
theorem CompleteSettlement_effect (st : LedgerState) (settlementID userID : String)
    (t : Option String) (s : Settlement)
    (hfind : findSettlement st.settlements settlementID = some s)
    (hfrom : s.fromUserID = userID) (hpending : s.status = .pending)
    (hdistinct : s.fromUserID ≠ s.toUserID) :
    (CompleteSettlement st settlementID userID t).2 = none ∧
    findSettlement (CompleteSettlement st settlementID userID t).1.settlements
      settlementID = some { s with status := .completed, transactionID := t } ∧
    balanceAmount (CompleteSettlement st settlementID userID t).1.balances
        s.fromUserID s.groupID =
      balanceAmount st.balances s.fromUserID s.groupID + s.amount ∧
    balanceAmount (CompleteSettlement st settlementID userID t).1.balances
        s.toUserID s.groupID =
      balanceAmount st.balances s.toUserID s.groupID - s.amount ∧
    (CompleteSettlement st settlementID userID t).1.history =
      st.history ++
        [{ userID := s.fromUserID, groupID := s.groupID, amount := s.amount,
           type := .settlement, referenceID := settlementID },
         { userID := s.toUserID, groupID := s.groupID, amount := -s.amount,
           type := .settlement, referenceID := settlementID }] := by
  rw [CompleteSettlement_run st settlementID userID t s hfind hfrom hpending]
  refine ⟨rfl, findSettlement_completedState st settlementID t s hfind, ?_, ?_, rfl⟩
  · show balanceAmount
      (UpdateBalance s.toUserID s.groupID (-s.amount)
        (UpdateBalance s.fromUserID s.groupID s.amount st.balances))
      s.fromUserID s.groupID = _
    rw [balanceAmount_UpdateBalance_other s.toUserID s.groupID (-s.amount)
        s.fromUserID s.groupID (fun hc => hdistinct hc.1) _,
      balanceAmount_UpdateBalance_same]
  · show balanceAmount
      (UpdateBalance s.toUserID s.groupID (-s.amount)
        (UpdateBalance s.fromUserID s.groupID s.amount st.balances))
      s.toUserID s.groupID = _
    rw [balanceAmount_UpdateBalance_same,
      balanceAmount_UpdateBalance_other s.fromUserID s.groupID s.amount
        s.toUserID s.groupID (fun hc => hdistinct hc.1.symm) _]
    ring

/-- C9.  Cancel may be invoked only by a party to the settlement, succeeds
only from `pending`, and is a pure status change: on success the balances
and the history are untouched, the settlement's status becomes `cancelled`
with all its other fields intact, and every other settlement is unchanged;
on any failure the whole state is returned unchanged. -/
theorem CancelSettlement_spec (st : LedgerState) (settlementID userID : String)
    (s : Settlement) (hfind : findSettlement st.settlements settlementID = some s) :
    (s.fromUserID ≠ userID → s.toUserID ≠ userID →
      CancelSettlement st settlementID userID = (st, some .settlementNotFound)) ∧
    ((s.fromUserID = userID ∨ s.toUserID = userID) → s.status ≠ .pending →
      CancelSettlement st settlementID userID = (st, some .cancelNotPending)) ∧
    ((s.fromUserID = userID ∨ s.toUserID = userID) → s.status = .pending →
      (CancelSettlement st settlementID userID).2 = none ∧
      (CancelSettlement st settlementID userID).1.balances = st.balances ∧
      (CancelSettlement st settlementID userID).1.history = st.history ∧
      findSettlement (CancelSettlement st settlementID userID).1.settlements
        settlementID = some { s with status := .cancelled } ∧
      (∀ id', id' ≠ settlementID →
        findSettlement (CancelSettlement st settlementID userID).1.settlements id' =
          findSettlement st.settlements id')) := by
  refine ⟨?_, ?_, ?_⟩
  · intro hfrom hto
    unfold CancelSettlement
    rw [hfind]
    simp [hfrom, hto]
  · intro hparty hstatus
    unfold CancelSettlement
    rw [hfind]
    rcases hparty with hp | hp
    · simp [hp, hstatus]
    · simp [hp, hstatus]
  · intro hparty hstatus
    have hnotboth : ¬(s.fromUserID ≠ userID ∧ s.toUserID ≠ userID) := by
      rcases hparty with hp | hp
      · exact fun hc => hc.1 hp
      · exact fun hc => hc.2 hp
    have hrun : CancelSettlement st settlementID userID =
        ({ st with settlements := MarkCancelled st.settlements settlementID }, none) := by
      unfold CancelSettlement
      rw [hfind]
      simp [hnotboth, hstatus]
    rw [hrun]
    refine ⟨rfl, rfl, rfl, ?_, ?_⟩
    · show findSettlement (MarkCancelled st.settlements settlementID) settlementID = _
      rw [MarkCancelled,
        findSettlement_updateFirst_same (fun x => { x with status := .cancelled })
          (fun _ => rfl) settlementID, hfind]
      rfl
    · intro id' hne
      show findSettlement (MarkCancelled st.settlements settlementID) id' = _
      rw [MarkCancelled]
      exact findSettlement_updateFirst_other (fun x => { x with status := .cancelled })
        (fun _ => rfl) settlementID id' hne _

/-! ## Expense service: validation gate and read access -/

/-- The structural preconditions of the claim, negated: an expense is
structurally invalid when its amount is not positive, it has no payer, some
payer amount is not positive, the payer amounts do not sum to the total
within 0.01, or the split type is unknown. -/
def structuralViolation (e : Expense) : Prop :=
  e.amount ≤ 0 ∨ e.paidBy = [] ∨ (∃ pb ∈ e.paidBy, pb.amount ≤ 0) ∨
    |(e.paidBy.map (fun pb => pb.amount)).sum - e.amount| > 1/100 ∨
    ¬(e.split.type = SplitEqual ∨ e.split.type = SplitExact ∨
      e.split.type = SplitPercentage ∨ e.split.type = SplitShares)

/-- C7.  `CreateExpense` fails with a validation error, returning the state
unchanged (no write), whenever the expense violates a structural
precondition; and for every expense satisfying all the structural
preconditions, structural validation succeeds. -/
theorem CreateExpense_validation_gate (st : ExpenseState) (e : Expense) :
    (structuralViolation e → CreateExpense st e = (st, some .validationError)) ∧
    (¬structuralViolation e → validateExpense e = none) := by
  constructor
  · intro hb
    have hv : validateExpense e = some .validationError := by
      unfold validateExpense
      split_ifs with h1 h2 h3 h4 h5
      · rfl
      · rfl
      · rfl
      · rfl
      · exfalso
        unfold structuralViolation at hb
        rcases hb with h | h | h | h | h
        · exact h1 h
        · exact h2 h
        · exact h3 h
        · exact h4 h
        · exact h h5
      · rfl
    unfold CreateExpense
    rw [hv]
  · intro hb
    unfold structuralViolation at hb
    push_neg at hb
    unfold validateExpense
    split_ifs with h1 h2 h3 h4 h5
    · exact absurd h1 (not_le.mpr hb.1)
    · exact absurd h2 hb.2.1
    · obtain ⟨pb, hpb, hle⟩ := h3
      exact absurd hle (not_le.mpr (hb.2.2.1 pb hpb))
    · exact absurd h4 (not_lt.mpr hb.2.2.2.1)
    · rfl
    · exact absurd hb.2.2.2.2 h5

/-- C10.  `GetExpense` never changes the state; when the stored expense
exists it is returned exactly when the requesting user is its creator, one
of its payers or one of its split participants, and any other user gets the
access-denied error carrying no expense data. -/
theorem GetExpense_access_control (st : ExpenseState) (expenseID userID : String) :
    (GetExpense st expenseID userID).1 = st ∧
    (∀ e, findExpense st.expenses expenseID = some e →
      (hasAccess e userID → GetExpense st expenseID userID = (st, .ok e)) ∧
      (¬hasAccess e userID →
        GetExpense st expenseID userID = (st, .error .accessDenied))) := by
  constructor
  · unfold GetExpense
    cases hfind : findExpense st.expenses expenseID with
    | none => rfl
    | some e =>
      by_cases h : hasAccess e userID
      · simp [h]
      · simp [h]
  · intro e hfind
    constructor
    · intro h
      unfold GetExpense
      rw [hfind]
      simp [h]
    · intro h
      unfold GetExpense
      rw [hfind]
      simp [h]

/-! ## The spec's worked scenario (§8): expense of 90, payer A, equal split -/

/-- The spec's scenario input: expense of 90.00, payer A pays 90.00, equal
split among A, B and C. -/
def scenarioExpense : Expense :=
  { expenseID := "exp-90", groupID := none, creatorID := "A", amount := 90,
    paidBy := [{ userID := "A", amount := 90 }],
    split := { type := SplitEqual,
               details := [{ userID := "A", value := 0 },
                           { userID := "B", value := 0 },
                           { userID := "C", value := 0 }] } }

/-- The scenario expense after the split calculation wrote the resolved
shares back into the split details, exactly as `CreateExpense` does before
calling `updateBalances`. -/
def scenarioResolved : Expense :=
  { scenarioExpense with
    split := { type := SplitEqual,
               details := [{ userID := "A", value := 30 },
                           { userID := "B", value := 30 },
                           { userID := "C", value := 30 }] } }

/-- C2.  On the spec's scenario the share calculation resolves 30.00 per
participant, as claimed; but applying the expense through `updateBalances`
(starting from empty balance rows, so the resulting amounts are the net
deltas) credits payer A with +120.00 — not the claimed +60.00 — because A
receives the self-netted `90 − 30 = 60` for A's own share and an additional
`+30` for each of B's and C's shares.  B and C get −30.00 as claimed. -/
theorem scenario_equal_split_deltas :
    calculateShares scenarioExpense = .ok [⟨"A", 30⟩, ⟨"B", 30⟩, ⟨"C", 30⟩] ∧
    balanceAmount (updateBalances scenarioResolved []) "A" none = 120 ∧
    balanceAmount (updateBalances scenarioResolved []) "B" none = -30 ∧
    balanceAmount (updateBalances scenarioResolved []) "C" none = -30 ∧
    balanceAmount (updateBalances scenarioResolved []) "A" none ≠ 60 := by
  have hshares : calculateShares scenarioExpense =
      .ok [⟨"A", 30⟩, ⟨"B", 30⟩, ⟨"C", 30⟩] := by
    have h : participantsOf scenarioExpense = ["A", "B", "C"] := by decide
    have ht : scenarioExpense.split.type = SplitEqual := by decide
    simp only [calculateShares, ht, if_pos, calculateEqualShares, h]
    norm_num [adjustFirst, scenarioExpense]
  have hA : balanceAmount (updateBalances scenarioResolved []) "A" none = 120 := by
    norm_num [scenarioResolved, scenarioExpense, updateBalances, UpdateBalance,
      balanceAmount, findBalance, List.foldl]
  refine ⟨hshares, hA, ?_, ?_, ?_⟩
  · norm_num [scenarioResolved, scenarioExpense, updateBalances, UpdateBalance,
      balanceAmount, findBalance, List.foldl]
    simp
  · norm_num [scenarioResolved, scenarioExpense, updateBalances, UpdateBalance,
      balanceAmount, findBalance, List.foldl]
    simp
  · rw [hA]
    norm_num

/-! ## Concrete fixtures and witnesses -/

/-- A settlement of 50 from X to Y that is already completed. -/
def completedSettlement : Settlement :=
  { settlementID := "s1", fromUserID := "X", toUserID := "Y", groupID := none,
    amount := 50, status := .completed, transactionID := none }

/-- A pending settlement of 50 from X to Y. -/
def pendingSettlement : Settlement :=
  { settlementID := "s2", fromUserID := "X", toUserID := "Y", groupID := none,
    amount := 50, status := .pending, transactionID := none }

def completedLedger : LedgerState :=
  { settlements := [completedSettlement], balances := [], history := [] }

def pendingLedger : LedgerState :=
  { settlements := [pendingSettlement], balances := [], history := [] }

theorem calculateShares_sum_within_tolerance_witness :
    |valueSum [⟨"A", 30⟩, ⟨"B", 30⟩, ⟨"C", 30⟩] - scenarioExpense.amount| ≤ 1/100 := by
  have hv : validateExpense scenarioExpense = none := by
    norm_num [validateExpense, scenarioExpense, SplitEqual]
  have h : calculateShares scenarioExpense =
      .ok [⟨"A", 30⟩, ⟨"B", 30⟩, ⟨"C", 30⟩] := by
    have hp : participantsOf scenarioExpense = ["A", "B", "C"] := by decide
    have ht : scenarioExpense.split.type = SplitEqual := by decide
    simp only [calculateShares, ht, if_pos, calculateEqualShares, hp]
    norm_num [adjustFirst, scenarioExpense]
  exact calculateShares_sum_within_tolerance scenarioExpense _ hv h

theorem CompleteSettlement_only_from_pending_witness :
    CompleteSettlement completedLedger "s1" "X" none =
      (completedLedger, some .alreadyFinalized) :=
  (CompleteSettlement_only_from_pending completedLedger "s1" "X" none).1
    completedSettlement rfl rfl (by decide)

theorem CompleteSettlement_effect_witness :
    (CompleteSettlement pendingLedger "s2" "X" none).2 = none ∧
    findSettlement (CompleteSettlement pendingLedger "s2" "X" none).1.settlements
      "s2" = some { pendingSettlement with
        status := .completed, transactionID := none } ∧
    balanceAmount (CompleteSettlement pendingLedger "s2" "X" none).1.balances
        "X" none = balanceAmount pendingLedger.balances "X" none + 50 ∧
    balanceAmount (CompleteSettlement pendingLedger "s2" "X" none).1.balances
        "Y" none = balanceAmount pendingLedger.balances "Y" none - 50 ∧
    (CompleteSettlement pendingLedger "s2" "X" none).1.history =
      pendingLedger.history ++
        [{ userID := "X", groupID := none, amount := 50,
           type := .settlement, referenceID := "s2" },
         { userID := "Y", groupID := none, amount := -50,
           type := .settlement, referenceID := "s2" }] :=
  CompleteSettlement_effect pendingLedger "s2" "X" none pendingSettlement
    rfl rfl rfl (by decide)

theorem calculateEqualShares_spec_witness :
    calculateEqualShares scenarioExpense = .ok [⟨"A", 30⟩, ⟨"B", 30⟩, ⟨"C", 30⟩] := by
  have h := (calculateEqualShares_spec scenarioExpense).2.2.2.1 "A" ["B", "C"]
    (by decide)
  rw [h]
  norm_num [scenarioExpense]

/-- Percentage-split expense whose values sum to 99. -/
def expensePct99 : Expense :=
  { expenseID := "e99", groupID := none, creatorID := "A", amount := 100,
    paidBy := [{ userID := "A", amount := 100 }],
    split := { type := SplitPercentage,
               details := [{ userID := "A", value := 50 },
                           { userID := "B", value := 49 }] } }

/-- Percentage-split expense whose values sum to 101. -/
def expensePct101 : Expense :=
  { expensePct99 with
    split := { type := SplitPercentage,
               details := [{ userID := "A", value := 50 },
                           { userID := "B", value := 51 }] } }

theorem calculatePercentageShares_spec_witness :
    calculatePercentageShares expensePct99 = .error .validationError ∧
    calculatePercentageShares expensePct101 = .error .validationError :=
  ⟨(calculatePercentageShares_spec expensePct99).2.2.1
      (by norm_num [expensePct99]),
    (calculatePercentageShares_spec expensePct101).2.2.1
      (by norm_num [expensePct101, expensePct99])⟩

/-- An expense with a non-positive amount: structurally invalid. -/
def negativeExpense : Expense :=
  { expenseID := "bad", groupID := none, creatorID := "A", amount := -5,
    paidBy := [{ userID := "A", amount := -5 }],
    split := { type := SplitEqual, details := [] } }

def emptyExpenseState : ExpenseState :=
  { users := ["A"], members := [], expenses := [], balances := [], history := [] }

theorem CreateExpense_validation_gate_witness :
    CreateExpense emptyExpenseState negativeExpense =
      (emptyExpenseState, some .validationError) :=
  (CreateExpense_validation_gate emptyExpenseState negativeExpense).1
    (Or.inl (by norm_num [negativeExpense]))

/-- A stored balance row at version 3. -/
def storedRow : Balance :=
  { userID := "U", groupID := none, balance := 10, version := 3 }

/-- A caller's stale balance: it last read version 2. -/
def staleBalance : Balance :=
  { userID := "U", groupID := none, balance := 25, version := 2 }

theorem UpdateBalanceWithVersion_spec_witness :
    UpdateBalanceWithVersion staleBalance [storedRow] =
      ([storedRow], some .optimisticLock) :=
  (UpdateBalanceWithVersion_spec staleBalance [storedRow]).1
    (by
      intro r hr hc
      rw [List.mem_singleton] at hr
      subst hr
      exact absurd hc.2.2 (by decide))

theorem CancelSettlement_spec_witness :
    (CancelSettlement pendingLedger "s2" "X").2 = none ∧
    (CancelSettlement pendingLedger "s2" "X").1.balances = pendingLedger.balances ∧
    (CancelSettlement pendingLedger "s2" "X").1.history = pendingLedger.history ∧
    findSettlement (CancelSettlement pendingLedger "s2" "X").1.settlements "s2" =
      some { pendingSettlement with status := .cancelled } := by
  have h := (CancelSettlement_spec pendingLedger "s2" "X" pendingSettlement rfl).2.2
    (Or.inl rfl) rfl
  exact ⟨h.1, h.2.1, h.2.2.1, h.2.2.2.1⟩

def storedExpenseState : ExpenseState :=
  { users := ["A", "B", "C"], members := [], expenses := [scenarioResolved],
    balances := [], history := [] }

theorem GetExpense_access_control_witness :
    GetExpense storedExpenseState "exp-90" "B" = (storedExpenseState, .ok scenarioResolved) ∧
    GetExpense storedExpenseState "exp-90" "Z" =
      (storedExpenseState, .error .accessDenied) :=
  ⟨((GetExpense_access_control storedExpenseState "exp-90" "B").2 scenarioResolved
      rfl).1 (Or.inr (Or.inr (by decide))),
    ((GetExpense_access_control storedExpenseState "exp-90" "Z").2 scenarioResolved
      rfl).2 (by decide)⟩

end DivvyDoo
